import Mathlib

/-!
Shallow embedding of `src/xml_processor.py`: the UML-model pipeline that
resolves aggregation edges into a containment graph and renders an XML
config string plus a JSON-metadata structure.

Modelling choices:
* Python's `Dict[str, ClassInfo]` (insertion ordered, unique keys) is an
  association list `List (String × ClassInfo)`; iteration order is list order.
* Python mutates `ClassInfo` objects shared between the dict values and the
  `children` lists.  Since every shared object is a value of the name-keyed
  dict and `name` is never mutated, we represent a child reference by its
  class name and resolve it through the map at use time, which reproduces
  the reference semantics exactly.
* `agg['sourceMultiplicity']` may be Python `None` (attribute absent in the
  XMI input), in which case `.split('..')` raises `AttributeError`; the
  field is an `Option String` and processing returns `Option` (`none` =
  the uncaught exception).
* `ConfigGenerator._build_xml` recurses through `children` with no cycle
  guard (the Python code diverges on cyclic input), so the Lean function
  takes explicit fuel; fuel `0` is the diverging case and never occurs for
  the acyclic models the claims are about.
-/

/-- `Attribute` dataclass from `xml_processor.py`. -/
structure Attr where
  name : String
  type : String
deriving DecidableEq, Repr

/-- `ClassInfo` dataclass from `xml_processor.py`.  `children` holds class
names standing for the shared references to the classes in the map. -/
structure ClassInfo where
  name : String
  is_root : Bool
  documentation : String
  attributes : List Attr
  children : List String
  min_multiplicity : Option String := none
  max_multiplicity : Option String := none
deriving DecidableEq, Repr

/-- The aggregation-edge record produced by `XMIParser._parse_aggregations`:
`agg.get(...)` yields `None` for an absent XML attribute, hence `Option`. -/
structure Aggregation where
  source : String
  target : String
  sourceMultiplicity : Option String
  targetMultiplicity : Option String
deriving DecidableEq, Repr

/-- The `classes` dict: insertion-ordered mapping from class name to record. -/
abbrev ClassMap := List (String × ClassInfo)

/-- `self.classes.get(name)`. -/
def lookupClass (m : ClassMap) (n : String) : Option ClassInfo :=
  (List.find? (fun p => p.1 = n) m).map Prod.snd

/-- In-place mutation of the dict value at key `n` (Python mutates the
shared `ClassInfo` object; keys and order are unchanged). -/
def updateClass (m : ClassMap) (n : String) (f : ClassInfo → ClassInfo) : ClassMap :=
  List.map (fun p => if p.1 = n then (p.1, f p.2) else p) m

/-- Model of Python `s.split('..')` on the character list: non-overlapping
left-to-right split on the two-character separator. -/
def splitDotsAux : List Char → List Char → List (List Char)
  | [], acc => [acc.reverse]
  | '.' :: '.' :: rest, acc => acc.reverse :: splitDotsAux rest []
  | c :: rest, acc => splitDotsAux rest (c :: acc)

/-- Python `s.split('..')`. -/
def splitDots (s : String) : List String :=
  (splitDotsAux s.data []).map List.asString

/-- `multiplicity[0]` (the split list is never empty, so the default is
unreachable). -/
def splitMin (s : String) : String :=
  (splitDots s).headD ""

/-- `multiplicity[-1] if len(multiplicity) > 1 else multiplicity[0]`. -/
def splitMax (s : String) : String :=
  let parts := splitDots s
  if 1 < parts.length then parts.getLastD "" else parts.headD ""

/-- `source_class.min_multiplicity = multiplicity[0]` and
`source_class.max_multiplicity = multiplicity[-1] if ... else multiplicity[0]`. -/
def setMult (s : String) (c : ClassInfo) : ClassInfo :=
  { c with min_multiplicity := some (splitMin s),
           max_multiplicity := some (splitMax s) }

/-- `target_class.children.append(source_class)` (the appended reference is
recorded by name). -/
def addChild (n : String) (c : ClassInfo) : ClassInfo :=
  { c with children := c.children ++ [n] }

/-- One iteration of `ModelProcessor._process_aggregations`: resolve target
then source; skip the edge when a lookup fails; `none` models the
`AttributeError` raised by `None.split('..')`. -/
def processAgg (m : ClassMap) (agg : Aggregation) : Option ClassMap :=
  match lookupClass m agg.target with
  | none => some m
  | some _ =>
    match lookupClass m agg.source with
    | none => some m
    | some _ =>
      match agg.sourceMultiplicity with
      | none => none
      | some s =>
        let m1 := updateClass m agg.source (setMult s)
        some (updateClass m1 agg.target (addChild agg.source))

/-- `ModelProcessor._process_aggregations`: the edges in list order. -/
def processAggs (m : ClassMap) : List Aggregation → Option ClassMap
  | [] => some m
  | a :: rest => (processAgg m a).bind (fun m1 => processAggs m1 rest)

/-- `'    ' * indent`. -/
def indentOf (indent : Nat) : String :=
  String.join (List.replicate indent "    ")

/-- `ConfigGenerator._build_xml` with explicit recursion fuel (the source
recursion is unguarded).  Child names always resolve in the pipeline
(children are only appended after a successful source lookup); a dangling
name is skipped by `filterMap`. -/
def buildXml : Nat → ClassMap → ClassInfo → Nat → String
  | 0, _, _, _ => ""
  | fuel + 1, m, c, indent =>
    let lines :=
      [indentOf indent ++ "<" ++ c.name ++ ">"]
      ++ c.attributes.map (fun a =>
          indentOf indent ++ "    <" ++ a.name ++ ">" ++ a.type ++ "</" ++ a.name ++ ">")
      ++ (c.children.filterMap (lookupClass m)).map (fun ch => buildXml fuel m ch (indent + 1))
      ++ [indentOf indent ++ "</" ++ c.name ++ ">"]
    String.intercalate "\n" lines

/-- `ConfigGenerator.generate`: first class with `is_root` in iteration
order, or the empty string. -/
def generateConfig (fuel : Nat) (m : ClassMap) : String :=
  match List.find? (fun p => p.2.is_root) m with
  | some p => buildXml fuel m p.2 0
  | none => ""

/-- One metadata object of `MetaGenerator.generate`.  Python builds a dict
whose keys appear in insertion order `class, documentation, isRoot, max?,
min?, parameters`; an optional key is present iff the `Option` field is
`some`.  A parameter entry is its `name`/`type` string pair. -/
structure ClassMeta where
  className : String
  documentation : String
  isRoot : Bool
  max : Option String
  min : Option String
  parameters : List (String × String)
deriving DecidableEq, Repr

/-- The metadata object built for one class by `MetaGenerator.generate`
(the two append loops over attributes then children). -/
def metaOfClass (c : ClassInfo) : ClassMeta :=
  { className := c.name
    documentation := c.documentation
    isRoot := c.is_root
    max := c.max_multiplicity
    min := c.min_multiplicity
    parameters :=
      c.children.foldl (fun ps n => ps ++ [(n, "class")])
        (c.attributes.foldl (fun ps a => ps ++ [(a.name, a.type)]) []) }

/-- `MetaGenerator.generate` up to JSON serialization: the append loop over
the classes in iteration order. -/
def generateMeta (m : ClassMap) : List ClassMeta :=
  m.foldl (fun acc p => acc ++ [metaOfClass p.2]) []

/-- `agg['target']`/`agg['source']` both resolve in the class map. -/
def resolves (m : ClassMap) (a : Aggregation) : Bool :=
  (lookupClass m a.target).isSome && (lookupClass m a.source).isSome

/-! ### Lookup/update lemmas for the association-list class map -/

theorem lookupClass_cons (p : String × ClassInfo) (rest : ClassMap) (n : String) :
    lookupClass (p :: rest) n = if p.1 = n then some p.2 else lookupClass rest n := by
  by_cases h : p.1 = n
  · simp [lookupClass, List.find?_cons_of_pos, h]
  · simp [lookupClass, List.find?_cons_of_neg, h]

theorem lookup_update_same (m : ClassMap) (n : String) (f : ClassInfo → ClassInfo) :
    lookupClass (updateClass m n f) n = (lookupClass m n).map f := by
  induction m with
  | nil => rfl
  | cons p rest ih =>
    by_cases h : p.1 = n
    · simp [updateClass, lookupClass_cons, h] at ih ⊢
    · simp [updateClass, lookupClass_cons, h] at ih ⊢
      exact ih

theorem lookup_update_other (m : ClassMap) (n x : String) (f : ClassInfo → ClassInfo)
    (h : x ≠ n) :
    lookupClass (updateClass m n f) x = lookupClass m x := by
  induction m with
  | nil => rfl
  | cons p rest ih =>
    by_cases hp : p.1 = n <;> by_cases hx : p.1 = x
    · exact absurd (hx.symm.trans hp) h
    · simp [updateClass, lookupClass_cons, hp, hx, h, Ne.symm h] at ih ⊢
      exact ih
    · simp [updateClass, lookupClass_cons, hp, hx, h, Ne.symm h]
    · simp [updateClass, lookupClass_cons, hp, hx, h, Ne.symm h] at ih ⊢
      exact ih

/-! ### Field accessors and their behaviour under the two mutations -/

/-- The `min_multiplicity` field of class `n`, if `n` is in the map. -/
def minOf (m : ClassMap) (n : String) : Option (Option String) :=
  (lookupClass m n).map ClassInfo.min_multiplicity

/-- The `max_multiplicity` field of class `n`, if `n` is in the map. -/
def maxOf (m : ClassMap) (n : String) : Option (Option String) :=
  (lookupClass m n).map ClassInfo.max_multiplicity

/-- The `children` field of class `n`, if `n` is in the map. -/
def childrenOf (m : ClassMap) (n : String) : Option (List String) :=
  (lookupClass m n).map ClassInfo.children

theorem minOf_update (m : ClassMap) (k n : String) (f : ClassInfo → ClassInfo)
    (hf : ∀ c, (f c).min_multiplicity = c.min_multiplicity) :
    minOf (updateClass m k f) n = minOf m n := by
  by_cases h : n = k
  · subst h
    rw [minOf, lookup_update_same, minOf]
    cases lookupClass m n <;> simp [hf]
  · rw [minOf, lookup_update_other m k n f h, minOf]

theorem maxOf_update (m : ClassMap) (k n : String) (f : ClassInfo → ClassInfo)
    (hf : ∀ c, (f c).max_multiplicity = c.max_multiplicity) :
    maxOf (updateClass m k f) n = maxOf m n := by
  by_cases h : n = k
  · subst h
    rw [maxOf, lookup_update_same, maxOf]
    cases lookupClass m n <;> simp [hf]
  · rw [maxOf, lookup_update_other m k n f h, maxOf]

theorem childrenOf_update (m : ClassMap) (k n : String) (f : ClassInfo → ClassInfo)
    (hf : ∀ c, (f c).children = c.children) :
    childrenOf (updateClass m k f) n = childrenOf m n := by
  by_cases h : n = k
  · subst h
    rw [childrenOf, lookup_update_same, childrenOf]
    cases lookupClass m n <;> simp [hf]
  · rw [childrenOf, lookup_update_other m k n f h, childrenOf]

theorem isSome_update (m : ClassMap) (k n : String) (f : ClassInfo → ClassInfo) :
    (lookupClass (updateClass m k f) n).isSome = (lookupClass m n).isSome := by
  by_cases h : n = k
  · subst h
    rw [lookup_update_same]
    cases lookupClass m n <;> simp
  · rw [lookup_update_other m k n f h]

/-! ### Behaviour of a single aggregation step -/

theorem processAgg_skip (m : ClassMap) (a : Aggregation) (h : resolves m a = false) :
    processAgg m a = some m := by
  unfold processAgg
  cases ht : lookupClass m a.target with
  | none => rfl
  | some t =>
    cases hs : lookupClass m a.source with
    | none => rfl
    | some c => simp [resolves, ht, hs] at h

theorem processAgg_success (m : ClassMap) (a : Aggregation) (s : String)
    (ht : (lookupClass m a.target).isSome) (hs : (lookupClass m a.source).isSome)
    (hm : a.sourceMultiplicity = some s) :
    processAgg m a = some (updateClass (updateClass m a.source (setMult s))
      a.target (addChild a.source)) := by
  rw [Option.isSome_iff_exists] at ht hs
  obtain ⟨t, ht⟩ := ht
  obtain ⟨c, hs⟩ := hs
  unfold processAgg
  rw [ht, hs, hm]

theorem processAgg_none_iff (m : ClassMap) (a : Aggregation) :
    processAgg m a = none ↔ resolves m a = true ∧ a.sourceMultiplicity = none := by
  unfold processAgg
  cases ht : lookupClass m a.target with
  | none => simp [resolves, ht]
  | some t =>
    cases hs : lookupClass m a.source with
    | none => simp [resolves, ht, hs]
    | some c =>
      cases hm : a.sourceMultiplicity with
      | none => simp [resolves, ht, hs]
      | some s => simp [resolves, ht, hs]

theorem processAgg_isSome (m m1 : ClassMap) (a : Aggregation) (n : String)
    (h : processAgg m a = some m1) :
    (lookupClass m1 n).isSome = (lookupClass m n).isSome := by
  by_cases hr : resolves m a
  · cases hm : a.sourceMultiplicity with
    | none =>
      rw [(processAgg_none_iff m a).mpr ⟨hr, hm⟩] at h
      exact absurd h (by simp)
    | some s =>
      rw [resolves, Bool.and_eq_true] at hr
      rw [processAgg_success m a s hr.1 hr.2 hm] at h
      cases h
      rw [isSome_update, isSome_update]
  · rw [processAgg_skip m a (by simpa using hr)] at h
    cases h
    rfl

theorem processAgg_resolves (m m1 : ClassMap) (a e : Aggregation)
    (h : processAgg m a = some m1) :
    resolves m1 e = resolves m e := by
  rw [resolves, resolves, processAgg_isSome m m1 a e.target h,
    processAgg_isSome m m1 a e.source h]

theorem processAgg_minOf (m m1 : ClassMap) (a : Aggregation) (n : String)
    (h : processAgg m a = some m1) (hn : a.source ≠ n) :
    minOf m1 n = minOf m n := by
  by_cases hr : resolves m a
  · cases hm : a.sourceMultiplicity with
    | none =>
      rw [(processAgg_none_iff m a).mpr ⟨hr, hm⟩] at h
      exact absurd h (by simp)
    | some s =>
      rw [resolves, Bool.and_eq_true] at hr
      rw [processAgg_success m a s hr.1 hr.2 hm] at h
      cases h
      rw [minOf_update (updateClass m a.source (setMult s)) a.target n
        (addChild a.source) (fun c => rfl),
        minOf, lookup_update_other m a.source n (setMult s) (Ne.symm hn), minOf]
  · rw [processAgg_skip m a (by simpa using hr)] at h
    cases h
    rfl

theorem processAgg_maxOf (m m1 : ClassMap) (a : Aggregation) (n : String)
    (h : processAgg m a = some m1) (hn : a.source ≠ n) :
    maxOf m1 n = maxOf m n := by
  by_cases hr : resolves m a
  · cases hm : a.sourceMultiplicity with
    | none =>
      rw [(processAgg_none_iff m a).mpr ⟨hr, hm⟩] at h
      exact absurd h (by simp)
    | some s =>
      rw [resolves, Bool.and_eq_true] at hr
      rw [processAgg_success m a s hr.1 hr.2 hm] at h
      cases h
      rw [maxOf_update (updateClass m a.source (setMult s)) a.target n
        (addChild a.source) (fun c => rfl),
        maxOf, lookup_update_other m a.source n (setMult s) (Ne.symm hn), maxOf]
  · rw [processAgg_skip m a (by simpa using hr)] at h
    cases h
    rfl

theorem processAgg_sets_minmax (m : ClassMap) (a : Aggregation) (s : String)
    (hr : resolves m a = true) (hm : a.sourceMultiplicity = some s) :
    ∃ m1, processAgg m a = some m1 ∧
      minOf m1 a.source = some (some (splitMin s)) ∧
      maxOf m1 a.source = some (some (splitMax s)) := by
  rw [resolves, Bool.and_eq_true] at hr
  refine ⟨_, processAgg_success m a s hr.1 hr.2 hm, ?_, ?_⟩
  · rw [minOf_update (updateClass m a.source (setMult s)) a.target a.source
      (addChild a.source) (fun c => rfl), minOf, lookup_update_same]
    obtain ⟨c, hc⟩ := Option.isSome_iff_exists.mp hr.2
    rw [hc]
    rfl
  · rw [maxOf_update (updateClass m a.source (setMult s)) a.target a.source
      (addChild a.source) (fun c => rfl), maxOf, lookup_update_same]
    obtain ⟨c, hc⟩ := Option.isSome_iff_exists.mp hr.2
    rw [hc]
    rfl

/-! ### Behaviour of processing a whole edge list -/

theorem processAggs_isSome (l : List Aggregation) (m m2 : ClassMap) (n : String)
    (h : processAggs m l = some m2) :
    (lookupClass m2 n).isSome = (lookupClass m n).isSome := by
  induction l generalizing m with
  | nil =>
    cases h
    rfl
  | cons a rest ih =>
    rw [processAggs] at h
    cases h1 : processAgg m a with
    | none => rw [h1] at h; cases h
    | some m1 =>
      rw [h1] at h
      rw [ih m1 h, processAgg_isSome m m1 a n h1]

theorem processAggs_resolves (l : List Aggregation) (m m2 : ClassMap) (e : Aggregation)
    (h : processAggs m l = some m2) :
    resolves m2 e = resolves m e := by
  rw [resolves, resolves, processAggs_isSome l m m2 e.target h,
    processAggs_isSome l m m2 e.source h]

theorem processAggs_minOf (l : List Aggregation) (m m2 : ClassMap) (n : String)
    (h : processAggs m l = some m2)
    (hn : ∀ e ∈ l, e.source = n → resolves m e = false) :
    minOf m2 n = minOf m n ∧ maxOf m2 n = maxOf m n := by
  induction l generalizing m with
  | nil =>
    cases h
    exact ⟨rfl, rfl⟩
  | cons a rest ih =>
    rw [processAggs] at h
    cases h1 : processAgg m a with
    | none => rw [h1] at h; cases h
    | some m1 =>
      rw [h1] at h
      have hrest : ∀ e ∈ rest, e.source = n → resolves m1 e = false := by
        intro e he hs
        rw [processAgg_resolves m m1 a e h1]
        exact hn e (List.mem_cons_of_mem a he) hs
      have step : minOf m1 n = minOf m n ∧ maxOf m1 n = maxOf m n := by
        by_cases hsrc : a.source = n
        · have := hn a (List.mem_cons_self a rest) hsrc
          rw [processAgg_skip m a this] at h1
          cases h1
          exact ⟨rfl, rfl⟩
        · exact ⟨processAgg_minOf m m1 a n h1 hsrc, processAgg_maxOf m m1 a n h1 hsrc⟩
      obtain ⟨ih1, ih2⟩ := ih m1 h hrest
      exact ⟨ih1.trans step.1, ih2.trans step.2⟩

theorem childrenOf_addChild (m : ClassMap) (n src : String) :
    childrenOf (updateClass m n (addChild src)) n
      = (childrenOf m n).map (fun l => l ++ [src]) := by
  rw [childrenOf, lookup_update_same, childrenOf]
  cases lookupClass m n <;> simp [addChild]

theorem processAggs_last_source (l1 l2 : List Aggregation) (e : Aggregation) (s : String)
    (m m2 : ClassMap)
    (h : processAggs m (l1 ++ e :: l2) = some m2)
    (hr : resolves m e = true)
    (hm : e.sourceMultiplicity = some s)
    (hlast : ∀ e2 ∈ l2, e2.source = e.source → resolves m e2 = false) :
    minOf m2 e.source = some (some (splitMin s)) ∧
    maxOf m2 e.source = some (some (splitMax s)) := by
  induction l1 generalizing m with
  | nil =>
    obtain ⟨m1, h1, hmin, hmax⟩ := processAgg_sets_minmax m e s hr hm
    rw [List.nil_append, processAggs, h1, Option.some_bind] at h
    have hrest : ∀ e2 ∈ l2, e2.source = e.source → resolves m1 e2 = false := by
      intro e2 he2 hs2
      rw [processAgg_resolves m m1 e e2 h1]
      exact hlast e2 he2 hs2
    obtain ⟨p1, p2⟩ := processAggs_minOf l2 m1 m2 e.source h hrest
    exact ⟨p1.trans hmin, p2.trans hmax⟩
  | cons a l1 ih =>
    rw [List.cons_append, processAggs] at h
    cases h1 : processAgg m a with
    | none => rw [h1] at h; cases h
    | some m1 =>
      rw [h1, Option.some_bind] at h
      refine ih m1 h ?_ ?_
      · rw [processAgg_resolves m m1 a e h1]
        exact hr
      · intro e2 he2 hs2
        rw [processAgg_resolves m m1 a e2 h1]
        exact hlast e2 he2 hs2

theorem childrenOf_update_other (m : ClassMap) (k n : String) (f : ClassInfo → ClassInfo)
    (h : n ≠ k) :
    childrenOf (updateClass m k f) n = childrenOf m n := by
  rw [childrenOf, lookup_update_other m k n f h, childrenOf]

/-- The resolving edges targeting `n`, in list order. -/
def edgesInto (m : ClassMap) (n : String) (l : List Aggregation) : List Aggregation :=
  l.filter (fun e => e.target == n && resolves m e)

theorem processAggs_children (l : List Aggregation) (m m2 : ClassMap) (n : String)
    (h : processAggs m l = some m2) :
    childrenOf m2 n
      = (childrenOf m n).map (fun cs => cs ++ (edgesInto m n l).map Aggregation.source) := by
  induction l generalizing m with
  | nil =>
    rw [processAggs, Option.some.injEq] at h
    rw [← h, edgesInto]
    cases childrenOf m n <;> simp
  | cons a rest ih =>
    rw [processAggs] at h
    cases h1 : processAgg m a with
    | none => rw [h1] at h; cases h
    | some m1 =>
      rw [h1, Option.some_bind] at h
      have hfilter : edgesInto m1 n rest = edgesInto m n rest := by
        rw [edgesInto, edgesInto]
        refine List.filter_congr ?_
        intro e _
        rw [processAgg_resolves m m1 a e h1]
      have ihm1 := ih m1 h
      rw [hfilter] at ihm1
      by_cases hr : resolves m a
      · cases hm : a.sourceMultiplicity with
        | none =>
          rw [(processAgg_none_iff m a).mpr ⟨hr, hm⟩] at h1
          cases h1
        | some s =>
          have hr2 := hr
          rw [resolves, Bool.and_eq_true] at hr2
          rw [processAgg_success m a s hr2.1 hr2.2 hm] at h1
          cases h1
          by_cases htgt : a.target = n
          · rw [htgt] at ihm1
            rw [childrenOf_addChild, childrenOf_update m a.source n (setMult s)
              (fun c => rfl)] at ihm1
            rw [ihm1]
            have hhead : edgesInto m n (a :: rest) = a :: edgesInto m n rest := by
              simp [edgesInto, List.filter_cons, htgt, hr]
            rw [hhead]
            cases childrenOf m n <;> simp
          · rw [childrenOf_update_other (updateClass m a.source (setMult s))
              a.target n (addChild a.source) (Ne.symm htgt),
              childrenOf_update m a.source n (setMult s) (fun c => rfl)] at ihm1
            rw [ihm1]
            have hhead : edgesInto m n (a :: rest) = edgesInto m n rest := by
              simp [edgesInto, List.filter_cons, htgt]
            rw [hhead]
      · have hrf : resolves m a = false := by simpa using hr
        rw [processAgg_skip m a hrf] at h1
        cases h1
        rw [ihm1]
        have hhead : edgesInto m n (a :: rest) = edgesInto m n rest := by
          simp [edgesInto, List.filter_cons, hrf]
        rw [hhead]

/-! ### Metadata renderer lemmas -/

theorem foldl_push_eq_append {α β : Type} (g : α → β) (l : List α) (init : List β) :
    l.foldl (fun ps a => ps ++ [g a]) init = init ++ l.map g := by
  induction l generalizing init with
  | nil => simp
  | cons x xs ih => simp [ih]

theorem metaOfClass_parameters (c : ClassInfo) :
    (metaOfClass c).parameters
      = c.attributes.map (fun a => (a.name, a.type))
        ++ c.children.map (fun n => (n, "class")) := by
  show c.children.foldl (fun ps n => ps ++ [(n, "class")])
      (c.attributes.foldl (fun ps a => ps ++ [(a.name, a.type)]) []) = _
  rw [foldl_push_eq_append (fun a => (a.name, a.type)) c.attributes [],
    foldl_push_eq_append (fun n => (n, "class")) c.children,
    List.nil_append]

theorem generateMeta_eq_map (m : ClassMap) :
    generateMeta m = m.map (fun p => metaOfClass p.2) := by
  rw [generateMeta, foldl_push_eq_append (fun p => metaOfClass p.2) m [], List.nil_append]

/-! ### The last segment of a multiplicity split -/

theorem splitMax_eq_getLastD (s : String) :
    splitMax s = (splitDots s).getLastD ((splitDots s).headD "") := by
  rw [splitMax]
  match h : splitDots s with
  | [] => simp
  | [x] => simp
  | x :: y :: t =>
    have hlen : 1 < (x :: y :: t).length := by simp
    rw [if_pos hlen]
    simp only [List.getLastD_cons]

/-- The end-to-end scenario of spec §8: classes `A` (root, no attributes)
and `B` (one attribute `x : int`), parsed but not yet processed. -/
def scenarioClasses : ClassMap :=
  [("A", { name := "A", is_root := true, documentation := "",
           attributes := [], children := [] }),
   ("B", { name := "B", is_root := false, documentation := "",
           attributes := [{ name := "x", type := "int" }], children := [] })]

/-- The scenario's single aggregation edge: `B --0..5--> A`. -/
def edgeBA : Aggregation :=
  { source := "B", target := "A", sourceMultiplicity := some "0..5",
    targetMultiplicity := none }

/-- The aggregation list of the scenario. -/
def scenarioAggs : List Aggregation := [edgeBA]

/-- The scenario model after `_process_aggregations`: `A` owns `B`, `B`
carries min `"0"` / max `"5"`. -/
def scenarioProcessed : ClassMap :=
  [("A", { name := "A", is_root := true, documentation := "",
           attributes := [], children := ["B"] }),
   ("B", { name := "B", is_root := false, documentation := "",
           attributes := [{ name := "x", type := "int" }], children := [],
           min_multiplicity := some "0", max_multiplicity := some "5" })]

theorem indentOf_zero : indentOf 0 = "" := rfl

theorem string_empty_append (s : String) : "" ++ s = s := rfl

theorem intercalate_pair (sep a b : String) :
    String.intercalate sep [a, b] = a ++ sep ++ b := rfl

/-! ### The claims -/

/-- C1: for the two-class input model (`A` root with no attributes, `B` with
attribute `x : int`, one aggregation `B --0..5--> A`) the pipeline (process
then render) produces exactly the config string
`<A>\n    <B>\n        <x>int</x>\n    </B>\n</A>` and metadata objects for
`A` (isRoot true, parameters `[(B, class)]`, no min/max keys) and `B`
(isRoot false, min `"0"`, max `"5"`, parameters `[(x, int)]`).  Any config
fuel at least the containment depth gives the same string. -/
theorem c1_end_to_end (fuel : Nat) (hf : 2 ≤ fuel) :
    (processAggs scenarioClasses scenarioAggs).map (generateConfig fuel)
      = some "<A>\n    <B>\n        <x>int</x>\n    </B>\n</A>" ∧
    (processAggs scenarioClasses scenarioAggs).map generateMeta
      = some
        [{ className := "A", documentation := "", isRoot := true,
           max := none, min := none, parameters := [("B", "class")] },
         { className := "B", documentation := "", isRoot := false,
           max := some "5", min := some "0", parameters := [("x", "int")] }] := by
  refine ⟨?_, by decide⟩
  obtain ⟨k, rfl⟩ : ∃ k, fuel = k + 2 := ⟨fuel - 2, by omega⟩
  have hp : processAggs scenarioClasses scenarioAggs = some scenarioProcessed := by decide
  rw [hp, Option.map_some']
  have hfind : List.find? (fun p => p.2.is_root) scenarioProcessed
      = some ("A", { name := "A", is_root := true, documentation := "",
                     attributes := [], children := ["B"] }) := by decide
  rw [generateConfig, hfind]
  have hB : List.filterMap (lookupClass scenarioProcessed) ["B"]
      = [{ name := "B", is_root := false, documentation := "",
           attributes := [{ name := "x", type := "int" }], children := [],
           min_multiplicity := some "0", max_multiplicity := some "5" }] := by decide
  simp only [buildXml, hB, List.map_nil, List.map_cons, List.filterMap_nil,
    List.nil_append, List.append_nil]
  decide

theorem c1_end_to_end_witness :
    2 ≤ 2 ∧
    ((processAggs scenarioClasses scenarioAggs).map (generateConfig 2)
      = some "<A>\n    <B>\n        <x>int</x>\n    </B>\n</A>" ∧
    (processAggs scenarioClasses scenarioAggs).map generateMeta
      = some
        [{ className := "A", documentation := "", isRoot := true,
           max := none, min := none, parameters := [("B", "class")] },
         { className := "B", documentation := "", isRoot := false,
           max := some "5", min := some "0", parameters := [("x", "int")] }]) :=
  ⟨by decide, c1_end_to_end 2 (by decide)⟩

/-- C2: for every aggregation edge whose source and target both resolve and
whose multiplicity string is present, processing succeeds and sets the
source class's `min_multiplicity` to the first segment of the `".."`-split
and `max_multiplicity` to the last segment (which falls back to the first
segment when there is no separator); in particular `"1..*"` splits into
min `"1"` / max `"*"` and `"1"` into min `"1"` / max `"1"`. -/
theorem c2_multiplicity_split :
    (∀ (m : ClassMap) (a : Aggregation) (s : String),
      (lookupClass m a.target).isSome = true →
      (lookupClass m a.source).isSome = true →
      a.sourceMultiplicity = some s →
      ∃ m2, processAgg m a = some m2 ∧
        minOf m2 a.source = some (some (splitMin s)) ∧
        maxOf m2 a.source = some (some (splitMax s)) ∧
        splitMin s = (splitDots s).headD "" ∧
        splitMax s = (splitDots s).getLastD ((splitDots s).headD "")) ∧
    splitMin "1..*" = "1" ∧ splitMax "1..*" = "*" ∧
    splitMin "1" = "1" ∧ splitMax "1" = "1" := by
  refine ⟨?_, by decide, by decide, by decide, by decide⟩
  intro m a s ht hs hm
  have hr : resolves m a = true := by
    rw [resolves, Bool.and_eq_true]
    exact ⟨ht, hs⟩
  obtain ⟨m2, h1, h2, h3⟩ := processAgg_sets_minmax m a s hr hm
  exact ⟨m2, h1, h2, h3, rfl, splitMax_eq_getLastD s⟩

theorem c2_multiplicity_split_witness :
    ((lookupClass scenarioClasses edgeBA.target).isSome = true ∧
      (lookupClass scenarioClasses edgeBA.source).isSome = true ∧
      edgeBA.sourceMultiplicity = some "0..5") ∧
    ∃ m2, processAgg scenarioClasses edgeBA = some m2 ∧
      minOf m2 edgeBA.source = some (some (splitMin "0..5")) ∧
      maxOf m2 edgeBA.source = some (some (splitMax "0..5")) ∧
      splitMin "0..5" = (splitDots "0..5").headD "" ∧
      splitMax "0..5" = (splitDots "0..5").getLastD ((splitDots "0..5").headD "") :=
  ⟨⟨by decide, by decide, rfl⟩,
    c2_multiplicity_split.1 scenarioClasses edgeBA "0..5" (by decide) (by decide) rfl⟩

/-- C3: when a class is the source of several aggregation edges, the
multiplicity recorded after processing is the one of the last resolving
edge with that source in list order — later edges overwrite the annotations
written by earlier ones. -/
theorem c3_last_edge_wins (m m2 : ClassMap) (l1 l2 : List Aggregation)
    (e : Aggregation) (s : String)
    (h : processAggs m (l1 ++ e :: l2) = some m2)
    (hr : resolves m e = true)
    (hm : e.sourceMultiplicity = some s)
    (hlast : ∀ e2 ∈ l2, e2.source = e.source → resolves m e2 = false) :
    minOf m2 e.source = some (some (splitMin s)) ∧
    maxOf m2 e.source = some (some (splitMax s)) :=
  processAggs_last_source l1 l2 e s m m2 h hr hm hlast

/-- Two edges sharing source `B`; processing both leaves B annotated by the
second one. -/
def overwriteAggs : List Aggregation :=
  [{ source := "B", target := "A", sourceMultiplicity := some "1..2",
     targetMultiplicity := none },
   { source := "B", target := "A", sourceMultiplicity := some "3..4",
     targetMultiplicity := none }]

/-- `scenarioClasses` after processing `overwriteAggs`. -/
def overwriteProcessed : ClassMap :=
  [("A", { name := "A", is_root := true, documentation := "",
           attributes := [], children := ["B", "B"] }),
   ("B", { name := "B", is_root := false, documentation := "",
           attributes := [{ name := "x", type := "int" }], children := [],
           min_multiplicity := some "3", max_multiplicity := some "4" })]

theorem c3_last_edge_wins_witness :
    (processAggs scenarioClasses
        ([{ source := "B", target := "A", sourceMultiplicity := some "1..2",
            targetMultiplicity := none }]
          ++ { source := "B", target := "A", sourceMultiplicity := some "3..4",
               targetMultiplicity := none } :: [])
      = some overwriteProcessed ∧
    resolves scenarioClasses
      { source := "B", target := "A", sourceMultiplicity := some "3..4",
        targetMultiplicity := none } = true) ∧
    minOf overwriteProcessed "B" = some (some (splitMin "3..4")) ∧
    maxOf overwriteProcessed "B" = some (some (splitMax "3..4")) :=
  ⟨⟨by decide, by decide⟩,
    c3_last_edge_wins scenarioClasses overwriteProcessed
      [{ source := "B", target := "A", sourceMultiplicity := some "1..2",
         targetMultiplicity := none }] []
      { source := "B", target := "A", sourceMultiplicity := some "3..4",
        targetMultiplicity := none } "3..4"
      (by decide) (by decide) rfl
      (fun e2 he2 _ => absurd he2 (List.not_mem_nil e2))⟩

/-- C4: an aggregation edge whose target (or source) name is missing from
the class map is skipped without error: the step returns the map unchanged
(no multiplicity set, no child added) and processing continues with the
remaining edges. -/
theorem c4_unresolved_edge_skipped (m : ClassMap) (a : Aggregation)
    (rest : List Aggregation)
    (h : lookupClass m a.target = none ∨ lookupClass m a.source = none) :
    processAgg m a = some m ∧ processAggs m (a :: rest) = processAggs m rest := by
  have hr : resolves m a = false := by
    rw [resolves]
    cases h with
    | inl h => rw [h]; rfl
    | inr h => rw [h]; simp
  refine ⟨processAgg_skip m a hr, ?_⟩
  rw [processAggs, processAgg_skip m a hr, Option.some_bind]

theorem c4_unresolved_edge_skipped_witness :
    (lookupClass scenarioClasses "Z" = none ∨
      lookupClass scenarioClasses "B" = none) ∧
    (processAgg scenarioClasses
        { source := "B", target := "Z", sourceMultiplicity := some "1",
          targetMultiplicity := none } = some scenarioClasses ∧
      processAggs scenarioClasses
          [{ source := "B", target := "Z", sourceMultiplicity := some "1",
             targetMultiplicity := none }]
        = processAggs scenarioClasses []) :=
  ⟨Or.inl (by decide),
    c4_unresolved_edge_skipped scenarioClasses
      { source := "B", target := "Z", sourceMultiplicity := some "1",
        targetMultiplicity := none } [] (Or.inl (by decide))⟩

/-- C5: every class's metadata object carries a `parameters` list built by
appending one `(name, type)` entry per attribute in attribute order and
then one `(childName, "class")` entry per child in children order:
attributes always precede children and the groups never interleave. -/
theorem c5_parameters_order (m : ClassMap) :
    generateMeta m = m.map (fun p => metaOfClass p.2) ∧
    ∀ p ∈ m, (metaOfClass p.2).parameters
      = p.2.attributes.map (fun a => (a.name, a.type))
        ++ p.2.children.map (fun n => (n, "class")) :=
  ⟨generateMeta_eq_map m, fun p _ => metaOfClass_parameters p.2⟩

theorem c5_parameters_order_witness :
    (("B", { name := "B", is_root := false, documentation := "",
             attributes := [{ name := "x", type := "int" }], children := [],
             min_multiplicity := some "0", max_multiplicity := some "5" })
        ∈ scenarioProcessed) ∧
    (metaOfClass { name := "B", is_root := false, documentation := "",
                   attributes := [{ name := "x", type := "int" }],
                   children := [], min_multiplicity := some "0",
                   max_multiplicity := some "5" }).parameters
      = [("x", "int")] :=
  ⟨by decide,
    by
      have h := (c5_parameters_order scenarioProcessed).2
        ("B", { name := "B", is_root := false, documentation := "",
                attributes := [{ name := "x", type := "int" }], children := [],
                min_multiplicity := some "0", max_multiplicity := some "5" })
        (by decide)
      simpa using h⟩

/-- C6: a metadata object has the `max` key exactly when `max_multiplicity`
is set and the `min` key exactly when `min_multiplicity` is set; a class
that is never the source of an aggregation edge keeps both fields unset
through processing, so its metadata object has neither key. -/
theorem c6_minmax_keys (m m2 : ClassMap) (l : List Aggregation) (n : String)
    (c : ClassInfo)
    (h : processAggs m l = some m2)
    (hc : lookupClass m n = some c)
    (hmin : c.min_multiplicity = none) (hmax : c.max_multiplicity = none)
    (hnever : ∀ e ∈ l, e.source ≠ n) :
    (∀ c2 : ClassInfo, (metaOfClass c2).max = c2.max_multiplicity ∧
      (metaOfClass c2).min = c2.min_multiplicity) ∧
    ∃ c2, lookupClass m2 n = some c2 ∧
      (metaOfClass c2).max = none ∧ (metaOfClass c2).min = none := by
  refine ⟨fun c2 => ⟨rfl, rfl⟩, ?_⟩
  obtain ⟨p1, p2⟩ :=
    processAggs_minOf l m m2 n h (fun e he hs => absurd hs (hnever e he))
  have hminm : minOf m n = some none := by simp [minOf, hc, hmin]
  have hmaxm : maxOf m n = some none := by simp [maxOf, hc, hmax]
  rw [hminm] at p1
  rw [hmaxm] at p2
  cases hl : lookupClass m2 n with
  | none =>
    rw [minOf, hl] at p1
    simp at p1
  | some c2 =>
    rw [minOf, hl] at p1
    rw [maxOf, hl] at p2
    refine ⟨c2, rfl, ?_, ?_⟩
    · show c2.max_multiplicity = none
      simpa using p2
    · show c2.min_multiplicity = none
      simpa using p1

theorem c6_minmax_keys_witness :
    (processAggs scenarioClasses scenarioAggs = some scenarioProcessed ∧
      lookupClass scenarioClasses "A"
        = some { name := "A", is_root := true, documentation := "",
                 attributes := [], children := [] } ∧
      (∀ e ∈ scenarioAggs, e.source ≠ "A")) ∧
    ((∀ c2 : ClassInfo, (metaOfClass c2).max = c2.max_multiplicity ∧
      (metaOfClass c2).min = c2.min_multiplicity) ∧
    ∃ c2, lookupClass scenarioProcessed "A" = some c2 ∧
      (metaOfClass c2).max = none ∧ (metaOfClass c2).min = none) :=
  ⟨⟨by decide, by decide, by decide⟩,
    c6_minmax_keys scenarioClasses scenarioProcessed scenarioAggs "A"
      { name := "A", is_root := true, documentation := "",
        attributes := [], children := [] }
      (by decide) (by decide) rfl rfl (by decide)⟩

/-- C7: when no class has `is_root = true` the config render returns the
empty string instead of failing; otherwise it renders the first class in
mapping iteration order whose `is_root` is true. -/
theorem c7_root_selection :
    (∀ (fuel : Nat) (m : ClassMap),
      (∀ p ∈ m, p.2.is_root = false) → generateConfig fuel m = "") ∧
    (∀ (fuel : Nat) (pre post : List (String × ClassInfo))
        (p : String × ClassInfo),
      (∀ q ∈ pre, q.2.is_root = false) → p.2.is_root = true →
      generateConfig fuel (pre ++ p :: post)
        = buildXml fuel (pre ++ p :: post) p.2 0) := by
  constructor
  · intro fuel m h
    have hf : List.find? (fun p => p.2.is_root) m = none :=
      List.find?_eq_none.mpr (fun x hx => by rw [h x hx]; simp)
    rw [generateConfig, hf]
  · intro fuel pre post p hpre hp
    have h1 : List.find? (fun q => q.2.is_root) pre = none :=
      List.find?_eq_none.mpr (fun x hx => by rw [hpre x hx]; simp)
    have hfind : List.find? (fun q => q.2.is_root) (pre ++ p :: post) = some p := by
      rw [List.find?_append, h1, Option.none_or]
      exact List.find?_cons_of_pos _ hp
    rw [generateConfig, hfind]

theorem c7_root_selection_witness :
    ((∀ p ∈ ([("B", { name := "B", is_root := false, documentation := "",
                      attributes := [], children := [] })] : List (String × ClassInfo)),
        p.2.is_root = false) ∧
      generateConfig 1
        [("B", { name := "B", is_root := false, documentation := "",
                 attributes := [], children := [] })] = "") ∧
    generateConfig 1 scenarioClasses
      = buildXml 1 scenarioClasses
          { name := "A", is_root := true, documentation := "",
            attributes := [], children := [] } 0 :=
  ⟨⟨by decide,
    c7_root_selection.1 1
      [("B", { name := "B", is_root := false, documentation := "",
               attributes := [], children := [] })] (by decide)⟩,
    c7_root_selection.2 1 []
      [("B", { name := "B", is_root := false, documentation := "",
               attributes := [{ name := "x", type := "int" }],
               children := [] })]
      ("A", { name := "A", is_root := true, documentation := "",
              attributes := [], children := [] })
      (by decide) (by decide)⟩

/-- C8: a class with no attributes and no children renders (at indentation
level 0) to exactly its open tag, a newline, and its close tag, with
nothing between them. -/
theorem c8_leaf_class_render (m : ClassMap) (c : ClassInfo) (fuel : Nat)
    (ha : c.attributes = []) (hc : c.children = []) (hf : 1 ≤ fuel) :
    buildXml fuel m c 0 = "<" ++ c.name ++ ">" ++ "\n" ++ "</" ++ c.name ++ ">" := by
  obtain ⟨k, rfl⟩ : ∃ k, fuel = k + 1 := ⟨fuel - 1, by omega⟩
  simp only [buildXml, ha, hc, List.map_nil, List.filterMap_nil, List.append_nil,
    List.nil_append, List.singleton_append, indentOf_zero, string_empty_append]
  rw [intercalate_pair]
  simp only [String.append_assoc]

theorem c8_leaf_class_render_witness :
    (([] : List Attr) = [] ∧ ([] : List String) = [] ∧ 1 ≤ 1) ∧
    buildXml 1 []
        { name := "N", is_root := false, documentation := "",
          attributes := [], children := [] } 0
      = "<" ++ "N" ++ ">" ++ "\n" ++ "</" ++ "N" ++ ">" :=
  ⟨⟨rfl, rfl, by decide⟩,
    c8_leaf_class_render []
      { name := "N", is_root := false, documentation := "",
        attributes := [], children := [] } 1 rfl rfl (by decide)⟩

/-- C9: after processing, a class's `children` equals its initial children
extended, in edge-list order, by the source of every resolving aggregation
edge targeting it — duplicates included — and its metadata parameters list
appends one `(childName, "class")` entry per child after the attribute
entries. -/
theorem c9_children_edge_order (m m2 : ClassMap) (l : List Aggregation)
    (n : String) (c : ClassInfo)
    (h : processAggs m l = some m2) (hc : lookupClass m n = some c) :
    ∃ c2, lookupClass m2 n = some c2 ∧
      c2.children = c.children ++ (edgesInto m n l).map Aggregation.source ∧
      (metaOfClass c2).parameters
        = c2.attributes.map (fun a => (a.name, a.type))
          ++ c2.children.map (fun x => (x, "class")) := by
  have hch := processAggs_children l m m2 n h
  rw [show childrenOf m n = some c.children from by simp [childrenOf, hc]] at hch
  cases hl : lookupClass m2 n with
  | none =>
    rw [childrenOf, hl] at hch
    simp at hch
  | some c2 =>
    rw [childrenOf, hl] at hch
    refine ⟨c2, rfl, ?_, metaOfClass_parameters c2⟩
    simpa using hch

/-- `scenarioClasses` after processing the duplicated edge `B --0..5--> A`
twice: `B` occurs twice in `A`'s children. -/
def dupProcessed : ClassMap :=
  [("A", { name := "A", is_root := true, documentation := "",
           attributes := [], children := ["B", "B"] }),
   ("B", { name := "B", is_root := false, documentation := "",
           attributes := [{ name := "x", type := "int" }], children := [],
           min_multiplicity := some "0", max_multiplicity := some "5" })]

theorem c9_children_edge_order_witness :
    (processAggs scenarioClasses [edgeBA, edgeBA] = some dupProcessed ∧
      lookupClass scenarioClasses "A"
        = some { name := "A", is_root := true, documentation := "",
                 attributes := [], children := [] }) ∧
    ∃ c2, lookupClass dupProcessed "A" = some c2 ∧
      c2.children = [] ++ (edgesInto scenarioClasses "A" [edgeBA, edgeBA]).map
        Aggregation.source ∧
      (metaOfClass c2).parameters
        = c2.attributes.map (fun a => (a.name, a.type))
          ++ c2.children.map (fun x => (x, "class")) :=
  ⟨⟨by decide, by decide⟩,
    c9_children_edge_order scenarioClasses dupProcessed [edgeBA, edgeBA] "A"
      { name := "A", is_root := true, documentation := "",
        attributes := [], children := [] }
      (by decide) (by decide)⟩

/-- C10: an aggregation edge parsed without a `sourceMultiplicity`
attribute (recorded as an absent value) whose source and target classes
both exist makes processing fail with an error — the edge is neither
skipped nor given a default multiplicity, and the failure aborts the whole
edge list. -/
theorem c10_missing_multiplicity_error (m : ClassMap) (a : Aggregation)
    (rest : List Aggregation)
    (hr : resolves m a = true) (hm : a.sourceMultiplicity = none) :
    processAgg m a = none ∧ processAggs m (a :: rest) = none := by
  have h1 := (processAgg_none_iff m a).mpr ⟨hr, hm⟩
  refine ⟨h1, ?_⟩
  rw [processAggs, h1]
  rfl

theorem c10_missing_multiplicity_error_witness :
    (resolves scenarioClasses
        { source := "B", target := "A", sourceMultiplicity := none,
          targetMultiplicity := none } = true ∧
      ({ source := "B", target := "A", sourceMultiplicity := none,
         targetMultiplicity := none } : Aggregation).sourceMultiplicity = none) ∧
    (processAgg scenarioClasses
        { source := "B", target := "A", sourceMultiplicity := none,
          targetMultiplicity := none } = none ∧
      processAggs scenarioClasses
        [{ source := "B", target := "A", sourceMultiplicity := none,
           targetMultiplicity := none }] = none) :=
  ⟨⟨by decide, rfl⟩,
    c10_missing_multiplicity_error scenarioClasses
      { source := "B", target := "A", sourceMultiplicity := none,
        targetMultiplicity := none } [] (by decide) rfl⟩
